import Mathlib

/-!
# Rolling-window volatility estimation — verification development

Shallow embedding of the volatility-estimation core of the SX5E base GBM
notebook (`SX5E - Base GBM Model (Sigma for Different Lookback).ipynb`),
together with the validated `VolatilityEstimator.estimate` contract of the
design document.  The numeric core follows the notebook loop

```
date_index = S_all.loc[S_all["Date"] == date].index[0]
history_data = list(S_all.iloc[date_index-M_value:date_index, ]["Adj Close"])
log_history_data = np.log(history_data)
log_return = log_history_data[1:] - log_history_data[:-1]
sigma[i] = np.std(log_return) / np.sqrt(dt)
```

with prices as real numbers.  `np.std` uses its default `ddof = 0`, the
population standard deviation.
-/

namespace GBMVol

/-- A row of the `S_all` dataframe restricted to its two used columns:
(`Date`, `Adj Close`). -/
abbrev Row : Type := String × ℝ

/-- The price series: the `S_all` dataframe, rows in positional order. -/
abbrev PriceSeries : Type := List Row

/-- `S_all.loc[S_all["Date"] == date].index[0]`: the position of the first
row whose `Date` column equals `date`; `none` when no row matches (pandas
raises there, via the empty `.index[0]`). -/
def dateIndex (series : PriceSeries) (date : String) : Option Nat :=
  series.findIdx? (fun row => row.1 == date)

/-- The positional slice `l[a:b]` of `iloc[a:b]`: rows at positions
`a, a+1, ..., b-1`. -/
def slice (l : List α) (a b : Nat) : List α :=
  (l.drop a).take (b - a)

/-- `list(S_all.iloc[date_index-M_value:date_index, ]["Adj Close"])`: the
`Adj Close` values of the rows at positions `dateIdx - M, ..., dateIdx - 1`.
(`Nat` subtraction clamps the lower bound at 0; every theorem below either
assumes `M ≤ dateIdx`, matching the actual runs of the notebook, or goes
through the validated `estimate`, which rejects `dateIdx < M` first.) -/
def historyData (series : PriceSeries) (dateIdx M : Nat) : List ℝ :=
  (slice series (dateIdx - M) dateIdx).map Prod.snd

/-- `np.log(history_data)`: elementwise natural logarithm. -/
noncomputable def logHistoryData (prices : List ℝ) : List ℝ :=
  prices.map Real.log

/-- `log_return = log_history_data[1:] - log_history_data[:-1]`: elementwise
difference of the tail against the init. -/
noncomputable def logReturn (prices : List ℝ) : List ℝ :=
  List.zipWith (fun a b => a - b) (logHistoryData prices).tail
    (logHistoryData prices).dropLast

/-- `np.mean l`. -/
noncomputable def mean (l : List ℝ) : ℝ :=
  l.sum / l.length

/-- `np.std l` with the default `ddof = 0`: the population standard
deviation `sqrt( Σ (x - mean)² / n )`. -/
noncomputable def npStd (l : List ℝ) : ℝ :=
  Real.sqrt ((l.map (fun x => (x - mean l) ^ 2)).sum / l.length)

/-- `sigma[i] = np.std(log_return) / np.sqrt(dt)`: the annualized volatility
the notebook computes for the valuation date at row position `dateIdx` and
lookback window `M`. -/
noncomputable def sigmaCore (series : PriceSeries) (dateIdx M : Nat) (dt : ℝ) : ℝ :=
  npStd (logReturn (historyData series dateIdx M)) / Real.sqrt dt

/-- The error taxonomy of the design document for volatility estimation. -/
inductive VolError : Type where
  | dateNotFound : VolError
  | insufficientHistory : VolError
  | invalidPrice : VolError
deriving DecidableEq

open Classical in
/-- Modelled from the spec: the repository contains only the unvalidated
notebook loop, and the `VolatilityEstimator.estimate` contract of §4.1 —
locate `valuation_date` (`DateNotFoundError` when absent), require at least
`M` observations strictly before it (`InsufficientHistoryError`, never a
silently clamped window), reject non-positive window prices
(`InvalidPriceError`) — has no implementation in the source.  The
validation branches follow §4.1/§7 of the spec; the success branch is
exactly the computation of the notebook, `sigmaCore`.  The signature takes
no random source. -/
noncomputable def estimate (series : PriceSeries) (valuationDate : String)
    (M : Nat) (dt : ℝ) : Except VolError ℝ :=
  match dateIndex series valuationDate with
  | none => .error .dateNotFound
  | some i =>
    if i < M then .error .insufficientHistory
    else if ∃ p ∈ historyData series i M, p ≤ 0 then .error .invalidPrice
    else .ok (sigmaCore series i M dt)

/-- The description of the returns in the spec: the M−1 log-returns
`r_i = ln(p_{i+1}) − ln(p_i)` over the consecutive pairs of the window
prices. -/
noncomputable def specLogReturns (prices : List ℝ) : List ℝ :=
  (prices.zip prices.tail).map (fun pq => Real.log pq.2 - Real.log pq.1)

/-- The deviation as described by the spec: population standard deviation,
dividing by count not count−1: `sqrt( (1/n) · Σ (r - (1/n) Σ r)² )`. -/
noncomputable def specPopStd (l : List ℝ) : ℝ :=
  Real.sqrt ((1 / l.length) *
    (l.map (fun x => (x - (1 / l.length) * l.sum) ^ 2)).sum)

/-- The annualization of the spec: `σ = std(returns) / sqrt(dt)`. -/
noncomputable def specSigma (prices : List ℝ) (dt : ℝ) : ℝ :=
  specPopStd (specLogReturns prices) / Real.sqrt dt

/-! ## Helper lemmas -/

/-- The elementwise tail-minus-init difference of the logs is the list of
log-returns over consecutive pairs. -/
theorem logReturn_eq_specLogReturns (l : List ℝ) : logReturn l = specLogReturns l := by
  induction l with
  | nil => rfl
  | cons a l ih =>
    cases l with
    | nil => rfl
    | cons b t =>
      simp only [logReturn, logHistoryData, specLogReturns, List.map_cons,
        List.tail_cons, List.zip_cons_cons, List.dropLast_cons₂,
        List.zipWith_cons_cons] at ih ⊢
      exact congrArg _ ih

/-- `np.std` agrees with the population-standard-deviation formula of the
spec. -/
theorem npStd_eq_specPopStd (l : List ℝ) : npStd l = specPopStd l := by
  unfold npStd specPopStd mean
  rw [div_eq_mul_inv, mul_comm, ← one_div]
  have hmap : List.map (fun x => (x - l.sum / (l.length : ℝ)) ^ 2) l
      = List.map (fun x => (x - (1 / (l.length : ℝ)) * l.sum) ^ 2) l := by
    apply List.map_congr_left
    intro x _
    rw [div_eq_mul_inv, mul_comm (l.sum), ← one_div]
  rw [hmap]

/-- A located valuation date lies inside the series. -/
theorem dateIndex_lt_length {series : PriceSeries} {d : String} {i : Nat}
    (h : dateIndex series d = some i) : i < series.length := by
  unfold dateIndex at h
  rw [List.findIdx?_eq_some_iff_getElem] at h
  exact h.1

/-- A date matching no row of the series is not located. -/
theorem dateIndex_none_of_not_mem {series : PriceSeries} {d : String}
    (h : d ∉ series.map Prod.fst) : dateIndex series d = none := by
  unfold dateIndex
  rw [List.findIdx?_eq_none_iff]
  intro row hrow
  simp only [beq_eq_false_iff_ne, ne_eq]
  intro hfst
  exact h (List.mem_map.mpr ⟨row, hrow, hfst⟩)

/-- The window slice, elementwise: with `M ≤ i < series.length` the window
has length `M` and its `j`-th price is the `Adj Close` of row `i - M + j`. -/
theorem historyData_window (series : PriceSeries) (i M : Nat) (hM : M ≤ i)
    (hi : i < series.length) :
    (historyData series i M).length = M ∧
      ∀ j, j < M → (historyData series i M)[j]? = (series[i - M + j]?).map Prod.snd := by
  unfold historyData slice
  constructor
  · rw [List.length_map, List.length_take, List.length_drop]
    omega
  · intro j hj
    rw [List.getElem?_map, List.getElem?_take_of_lt (by omega), List.getElem?_drop]

/-- Reduction of `estimate` on validated inputs to the notebook value. -/
theorem estimate_ok (series : PriceSeries) (d : String) (M : Nat) (dt : ℝ) (i : Nat)
    (hfind : dateIndex series d = some i) (hge : ¬ i < M)
    (hpos : ∀ p ∈ historyData series i M, 0 < p) :
    estimate series d M dt = .ok (sigmaCore series i M dt) := by
  unfold estimate
  rw [hfind]
  simp only
  rw [if_neg hge, if_neg ?hnp]
  case hnp =>
    rintro ⟨p, hp, hple⟩
    exact absurd (hpos p hp) (not_lt.mpr hple)

/-- A list of zeros has zero `np.std`. -/
theorem npStd_of_all_zero {l : List ℝ} (h : ∀ x ∈ l, x = 0) : npStd l = 0 := by
  unfold npStd
  have hsum : l.sum = 0 := List.sum_eq_zero h
  have hmean : mean l = 0 := by unfold mean; rw [hsum, zero_div]
  have hmap : l.map (fun x => (x - mean l) ^ 2) = l.map (fun _ => (0 : ℝ)) := by
    apply List.map_congr_left
    intro x hx
    rw [h x hx, hmean, sub_zero]
    norm_num
  rw [hmap]
  simp

/-- Constant prices give identically-zero log-returns. -/
theorem specLogReturns_all_zero {l : List ℝ} {c : ℝ} (h : ∀ x ∈ l, x = c) :
    ∀ x ∈ specLogReturns l, x = 0 := by
  intro x hx
  unfold specLogReturns at hx
  obtain ⟨pq, hpq, rfl⟩ := List.mem_map.mp hx
  obtain ⟨h1, h2⟩ := List.of_mem_zip (a := pq.1) (b := pq.2) hpq
  rw [h pq.1 h1, h pq.2 (List.mem_of_mem_tail h2), sub_self]

/-- The notebook sigma is a quotient of square roots, hence nonnegative. -/
theorem sigmaCore_nonneg (series : PriceSeries) (i M : Nat) (dt : ℝ) :
    0 ≤ sigmaCore series i M dt :=
  div_nonneg (Real.sqrt_nonneg _) (Real.sqrt_nonneg _)

/-- Log-returns are invariant under scaling all prices by `c > 0`. -/
theorem specLogReturns_scale {l : List ℝ} {c : ℝ} (hc : 0 < c)
    (hpos : ∀ p ∈ l, 0 < p) :
    specLogReturns (l.map (fun p => c * p)) = specLogReturns l := by
  unfold specLogReturns
  rw [← List.map_tail, List.zip_map, List.map_map]
  apply List.map_congr_left
  intro pq hpq
  obtain ⟨h1, h2⟩ := List.of_mem_zip (a := pq.1) (b := pq.2) hpq
  have hp1 : (0 : ℝ) < pq.1 := hpos _ h1
  have hp2 : (0 : ℝ) < pq.2 := hpos _ (List.mem_of_mem_tail h2)
  simp only [Function.comp, Prod.map]
  rw [Real.log_mul (ne_of_gt hc) (ne_of_gt hp2),
    Real.log_mul (ne_of_gt hc) (ne_of_gt hp1)]
  ring

/-! ## Concrete series for witnesses -/

/-- A three-row series with strictly positive, non-constant prices. -/
def W1 : PriceSeries := [("2023-08-07", 100), ("2023-08-08", 101), ("2023-08-09", 102)]

/-- The prices of the `W1` window before row 2 are positive. -/
theorem W1_window_pos : ∀ p ∈ historyData W1 2 2, 0 < p := by
  intro p hp
  rw [show historyData W1 2 2 = [(100 : ℝ), 101] from rfl] at hp
  simp only [List.mem_cons, List.not_mem_nil, or_false] at hp
  rcases hp with rfl | rfl <;> norm_num

/-- A three-row series with constant price 100. -/
def WConst : PriceSeries := [("2023-08-07", 100), ("2023-08-08", 100), ("2023-08-09", 100)]

/-- A three-row series whose window before row 2 contains a negative price. -/
def WBad : PriceSeries := [("2023-08-07", 100), ("2023-08-08", -5), ("2023-08-09", 102)]

/-- Base series for the scaling witness. -/
def W7a : PriceSeries := [("a", 100), ("b", 101), ("c", 102)]

/-- `W7a` with the two window prices before row 2 scaled by 2. -/
def W7b : PriceSeries := [("a", 200), ("b", 202), ("c", 102)]

/-- The prices of the `W7a` window before row 2 are positive. -/
theorem W7a_window_pos : ∀ p ∈ historyData W7a 2 2, 0 < p := by
  intro p hp
  rw [show historyData W7a 2 2 = [(100 : ℝ), 101] from rfl] at hp
  simp only [List.mem_cons, List.not_mem_nil, or_false] at hp
  rcases hp with rfl | rfl <;> norm_num

/-- `W7a` with every `Date` value replaced. -/
def WDates : PriceSeries := [("x", 100), ("y", 101), ("z", 102)]

/-! ## Claims -/

/-- C1: for every price series, valuation date present in the series with at
least `M` prior observations, `M ≥ 2` and `dt > 0` (prices in the window
positive, as the contract requires), the volatility estimate equals the
population standard deviation — dividing by the count of returns, not count
minus one — of the `M − 1` log-returns `ln(p_{j+1}) − ln(p_j)` formed from
the `M` window prices, divided by `sqrt(dt)`. -/
theorem estimate_eq_spec_population_std (series : PriceSeries) (d : String)
    (M : Nat) (dt : ℝ) (i : Nat)
    (hfind : dateIndex series d = some i) (hM : M ≤ i) (hM2 : 2 ≤ M) (hdt : 0 < dt)
    (hpos : ∀ p ∈ historyData series i M, 0 < p) :
    estimate series d M dt = .ok (specSigma (historyData series i M) dt) ∧
      (specLogReturns (historyData series i M)).length = M - 1 := by
  have hi : i < series.length := dateIndex_lt_length hfind
  have hlen : (historyData series i M).length = M :=
    (historyData_window series i M hM hi).1
  refine ⟨?_, ?_⟩
  · rw [estimate_ok series d M dt i hfind (by omega) hpos]
    unfold sigmaCore specSigma
    rw [logReturn_eq_specLogReturns, npStd_eq_specPopStd]
  · unfold specLogReturns
    rw [List.length_map, List.length_zip, List.length_tail, hlen]
    omega

/-- C1 witness: the theorem applied to `W1` at its last row with `M = 2`,
`dt = 1/252`. -/
theorem estimate_eq_spec_population_std_witness :
    estimate W1 "2023-08-09" 2 (1 / 252)
        = .ok (specSigma (historyData W1 2 2) (1 / 252)) ∧
      (specLogReturns (historyData W1 2 2)).length = 2 - 1 :=
  estimate_eq_spec_population_std W1 "2023-08-09" 2 (1 / 252) 2 rfl (by decide)
    (by decide) (by norm_num) W1_window_pos

/-- C2: for a valuation date at row position `i ≥ M`, the estimation window
is exactly the `M` prices at positions `i − M, ..., i − 1`: it has length
`M`, its `j`-th price is the `Adj Close` of row `i − M + j`, and every
position it reads is strictly below `i`, so the price of the valuation date
itself is never used. -/
theorem historyData_uses_M_prior_rows (series : PriceSeries) (i M : Nat)
    (hM : M ≤ i) (hi : i < series.length) :
    (historyData series i M).length = M ∧
      ∀ j, j < M →
        (historyData series i M)[j]? = (series[i - M + j]?).map Prod.snd ∧
          i - M + j < i := by
  obtain ⟨hlen, helem⟩ := historyData_window series i M hM hi
  exact ⟨hlen, fun j hj => ⟨helem j hj, by omega⟩⟩

/-- C2 witness: the theorem applied to `W1` at row position 2 with `M = 2`. -/
theorem historyData_uses_M_prior_rows_witness :
    (historyData W1 2 2).length = 2 ∧
      ∀ j, j < 2 →
        (historyData W1 2 2)[j]? = (W1[2 - 2 + j]?).map Prod.snd ∧ 2 - 2 + j < 2 :=
  historyData_uses_M_prior_rows W1 2 2 (by decide) (by decide)

/-- C3: when the valuation date sits at row position `i` with `i < M` —
fewer than `M` observations strictly before it, in particular whenever `M`
exceeds the available history — the estimation returns
`InsufficientHistoryError` and never a value from a clamped window. -/
theorem estimate_insufficient_history (series : PriceSeries) (d : String)
    (M : Nat) (dt : ℝ) (i : Nat)
    (hfind : dateIndex series d = some i) (hlt : i < M) :
    estimate series d M dt = .error .insufficientHistory := by
  unfold estimate
  rw [hfind]
  simp only
  rw [if_pos hlt]

/-- C3 witness: `W1` has only 2 observations before its last row, so
`M = 5` is rejected. -/
theorem estimate_insufficient_history_witness :
    estimate W1 "2023-08-09" 5 (1 / 252) = .error .insufficientHistory :=
  estimate_insufficient_history W1 "2023-08-09" 5 (1 / 252) 2 rfl (by decide)

/-- C4: when the window of `M` prices contains a non-positive price, the
estimation returns `InvalidPriceError` rather than a numeric value. -/
theorem estimate_invalid_price (series : PriceSeries) (d : String)
    (M : Nat) (dt : ℝ) (i : Nat)
    (hfind : dateIndex series d = some i) (hge : ¬ i < M)
    (hbad : ∃ p ∈ historyData series i M, p ≤ 0) :
    estimate series d M dt = .error .invalidPrice := by
  unfold estimate
  rw [hfind]
  simp only
  rw [if_neg hge, if_pos hbad]

/-- C4 witness: the window of `WBad` before its last row contains `-5`. -/
theorem estimate_invalid_price_witness :
    estimate WBad "2023-08-09" 2 (1 / 252) = .error .invalidPrice :=
  estimate_invalid_price WBad "2023-08-09" 2 (1 / 252) 2 rfl (by decide)
    ⟨-5, by
      rw [show historyData WBad 2 2 = [(100 : ℝ), -5] from rfl]
      simp, by norm_num⟩

/-- C5: when the valuation date occurs in no `Date` cell of the series, the
estimation returns `DateNotFoundError`. -/
theorem estimate_date_not_found (series : PriceSeries) (d : String)
    (M : Nat) (dt : ℝ) (hmem : d ∉ series.map Prod.fst) :
    estimate series d M dt = .error .dateNotFound := by
  unfold estimate
  rw [dateIndex_none_of_not_mem hmem]

/-- C5 witness: `2023-08-10` is not a date of `W1`. -/
theorem estimate_date_not_found_witness :
    estimate W1 "2023-08-10" 2 (1 / 252) = .error .dateNotFound :=
  estimate_date_not_found W1 "2023-08-10" 2 (1 / 252) (by decide)

/-- C6: when the `M` window prices all equal the same positive constant `c`,
the volatility estimate is exactly 0. -/
theorem estimate_constant_prices_zero (series : PriceSeries) (d : String)
    (M : Nat) (dt : ℝ) (i : Nat) (c : ℝ)
    (hfind : dateIndex series d = some i) (hge : ¬ i < M) (hc : 0 < c)
    (hconst : ∀ p ∈ historyData series i M, p = c) :
    estimate series d M dt = .ok 0 := by
  rw [estimate_ok series d M dt i hfind hge (fun p hp => (hconst p hp) ▸ hc)]
  unfold sigmaCore
  rw [logReturn_eq_specLogReturns,
    npStd_of_all_zero (specLogReturns_all_zero hconst), zero_div]

/-- C6 witness: `WConst` has constant price 100, and its estimate at the
last row with `M = 2` is exactly 0. -/
theorem estimate_constant_prices_zero_witness :
    estimate WConst "2023-08-09" 2 (1 / 252) = .ok 0 :=
  estimate_constant_prices_zero WConst "2023-08-09" 2 (1 / 252) 2 100 rfl
    (by decide) (by norm_num)
    (by
      intro p hp
      rw [show historyData WConst 2 2 = [(100 : ℝ), 100] from rfl] at hp
      simp only [List.mem_cons, List.not_mem_nil, or_false, or_self] at hp
      exact hp)

/-- C7: multiplying each window price by a constant `c > 0` (both series
locating the valuation date at the same row position) leaves the volatility
estimate unchanged: σ is scale-invariant under a uniform price rescale. -/
theorem estimate_scale_invariant (s1 s2 : PriceSeries) (d : String)
    (M : Nat) (dt c : ℝ) (i : Nat) (hc : 0 < c)
    (hfind1 : dateIndex s1 d = some i) (hfind2 : dateIndex s2 d = some i)
    (hge : ¬ i < M)
    (hpos : ∀ p ∈ historyData s1 i M, 0 < p)
    (hscale : historyData s2 i M = (historyData s1 i M).map (fun p => c * p)) :
    estimate s2 d M dt = estimate s1 d M dt := by
  have hpos2 : ∀ p ∈ historyData s2 i M, 0 < p := by
    intro p hp
    rw [hscale] at hp
    obtain ⟨q, hq, rfl⟩ := List.mem_map.mp hp
    exact mul_pos hc (hpos q hq)
  rw [estimate_ok s1 d M dt i hfind1 hge hpos,
    estimate_ok s2 d M dt i hfind2 hge hpos2]
  unfold sigmaCore
  rw [hscale, logReturn_eq_specLogReturns, logReturn_eq_specLogReturns,
    specLogReturns_scale hc hpos]

/-- C7 witness: `W7b` doubles the two window prices of `W7a` before row 2,
and the two estimates coincide. -/
theorem estimate_scale_invariant_witness :
    estimate W7b "c" 2 (1 / 252) = estimate W7a "c" 2 (1 / 252) :=
  estimate_scale_invariant W7a W7b "c" 2 (1 / 252) 2 2 (by norm_num) rfl rfl
    (by decide) W7a_window_pos
    (by
      rw [show historyData W7b 2 2 = [(200 : ℝ), 202] from rfl,
        show historyData W7a 2 2 = [(100 : ℝ), 101] from rfl]
      norm_num)

/-- C8: every volatility value the estimator returns is nonnegative. -/
theorem estimate_sigma_nonneg (series : PriceSeries) (d : String)
    (M : Nat) (dt : ℝ) (σ : ℝ)
    (h : estimate series d M dt = .ok σ) : 0 ≤ σ := by
  unfold estimate at h
  cases hidx : dateIndex series d with
  | none => rw [hidx] at h; cases h
  | some i =>
    rw [hidx] at h
    simp only at h
    by_cases h1 : i < M
    · rw [if_pos h1] at h; cases h
    · rw [if_neg h1] at h
      by_cases h2 : ∃ p ∈ historyData series i M, p ≤ 0
      · rw [if_pos h2] at h; cases h
      · rw [if_neg h2] at h
        cases h
        exact sigmaCore_nonneg series i M dt

/-- C8 witness: the value returned on `W1` at its last row is nonnegative. -/
theorem estimate_sigma_nonneg_witness : 0 ≤ sigmaCore W1 2 2 (1 / 252) :=
  estimate_sigma_nonneg W1 "2023-08-09" 2 (1 / 252) (sigmaCore W1 2 2 (1 / 252))
    (estimate_ok W1 "2023-08-09" 2 (1 / 252) 2 rfl (by decide) W1_window_pos)

/-- C9: the estimation is deterministic — two runs on identical inputs
(same series, valuation date, `M`, `dt`) produce identical results; the
estimator takes no random source. -/
theorem estimate_deterministic (s1 s2 : PriceSeries) (d1 d2 : String)
    (M1 M2 : Nat) (dt1 dt2 : ℝ)
    (hs : s1 = s2) (hd : d1 = d2) (hM : M1 = M2) (hdt : dt1 = dt2) :
    estimate s1 d1 M1 dt1 = estimate s2 d2 M2 dt2 := by
  rw [hs, hd, hM, hdt]

/-- C9 witness: the theorem applied to two identical runs on `W1`. -/
theorem estimate_deterministic_witness :
    estimate W1 "2023-08-09" 2 (1 / 252) = estimate W1 "2023-08-09" 2 (1 / 252) :=
  estimate_deterministic W1 W1 "2023-08-09" "2023-08-09" 2 2 (1 / 252) (1 / 252)
    rfl rfl rfl rfl

/-- C10: for a fixed valuation-date row position and window length `M`, the
volatility depends only on the `Adj Close` column and on `dt`: two series
with the same prices row-by-row — dates arbitrary, e.g. irregular calendar
spacing — give the same σ, since annualization uses the constant `dt`. -/
theorem sigmaCore_ignores_dates (s1 s2 : PriceSeries) (i M : Nat) (dt : ℝ)
    (hprices : s1.map Prod.snd = s2.map Prod.snd) :
    sigmaCore s1 i M dt = sigmaCore s2 i M dt := by
  have hw : ∀ s : PriceSeries, historyData s i M = slice (s.map Prod.snd) (i - M) i := by
    intro s
    unfold historyData slice
    rw [List.map_take, List.map_drop]
  unfold sigmaCore
  rw [hw, hw, hprices]

/-- C10 witness: `WDates` renames every date of `W7a` and σ is unchanged. -/
theorem sigmaCore_ignores_dates_witness :
    sigmaCore W7a 2 2 (1 / 252) = sigmaCore WDates 2 2 (1 / 252) :=
  sigmaCore_ignores_dates W7a WDates 2 2 (1 / 252) rfl

end GBMVol
